import Mathlib

/-!
Shallow embedding of the `prim` PNG decoder (`src/main.rs`) and proofs about it.

Bytes are modelled as `UInt8`, byte buffers as `List UInt8`.  A Rust
`&mut &[u8]` cursor is modelled by state passing: each primitive reader takes
the current buffer and returns the pair (return value, buffer after the call),
so that a failed read that does not assign through the reference leaves the
returned buffer equal to the input buffer, exactly as in the source.

Rust `Option`-returning functions become `Option`-returning Lean functions.
`read_png` additionally can panic (out-of-bounds slice indexing on `file[i]`
and `chunks[0]`), so its result type has an explicit `panicked` constructor.

The source's two `while` loops (`read_chunks`, `decompress_image`) are embedded
as fuel recursion with the fuel fixed to `input length + 1`; a theorem below
shows any fuel above the input length computes the same result, so the loops
make progress bounded by the input length and the embedding is faithful to the
terminating Rust loops.

The source also resets a process-wide diagnostic counter `BITS_READ` inside
`read_bytes`; that write has no effect on any result and is not modelled.  The
unused function `read_bits` is likewise not modelled.
-/

/-- Embeds `read_bytes` (src/main.rs:251-261): if fewer than `n` bytes remain
the cursor is untouched and `none` is returned; otherwise the buffer is split. -/
def read_bytes (file : List UInt8) (n : Nat) : Option (List UInt8) × List UInt8 :=
  if file.length < n then (none, file)
  else (some (file.take n), file.drop n)

/-- Embeds `read_u8` (src/main.rs:242-245).  The returned slice always has
length 1, so `num_slice[0]` is its head. -/
def read_u8 (file : List UInt8) : Option UInt8 × List UInt8 :=
  match read_bytes file 1 with
  | (none, f) => (none, f)
  | (some bs, f) => (some (bs.headD 0), f)

/-- Big-endian `u16::from_be_bytes`. -/
def u16FromBe (b0 b1 : UInt8) : UInt16 :=
  UInt16.ofNat (b0.toNat * 256 + b1.toNat)

/-- Big-endian `u32::from_be_bytes`. -/
def u32FromBe (b0 b1 b2 b3 : UInt8) : UInt32 :=
  UInt32.ofNat (((b0.toNat * 256 + b1.toNat) * 256 + b2.toNat) * 256 + b3.toNat)

/-- Embeds `read_u16` (src/main.rs:230-238).  The `try_into` conversion fails
exactly when the slice does not have length 2 (never reachable after a
successful `read_bytes file 2`). -/
def read_u16 (file : List UInt8) : Option UInt16 × List UInt8 :=
  match read_bytes file 2 with
  | (none, f) => (none, f)
  | (some bs, f) =>
    match bs with
    | [b0, b1] => (some (u16FromBe b0 b1), f)
    | _ => (none, f)

/-- Embeds `read_u32` (src/main.rs:218-226). -/
def read_u32 (file : List UInt8) : Option UInt32 × List UInt8 :=
  match read_bytes file 4 with
  | (none, f) => (none, f)
  | (some bs, f) =>
    match bs with
    | [b0, b1, b2, b3] => (some (u32FromBe b0 b1 b2 b3), f)
    | _ => (none, f)

/-- Embeds `enum PNGChunk` (src/main.rs:26-41); the borrowed `IDAT` payload
becomes an owned byte list. -/
inductive PNGChunk where
  | IHDR (width height : UInt32)
      (bit_depth color_type compression_method filter_method interlace_method : UInt8)
  | PLTE
  | IDAT (data : List UInt8)
  | IEND
  | Ancillary
deriving DecidableEq

/-- Embeds `struct PNG` (src/main.rs:20-24): the decoded value holds only the
width and the height; the decoder produces no pixel data. -/
structure PNG where
  width : UInt32
  height : UInt32
deriving DecidableEq

/-- Result of running a Rust function that can return a value, return
`None`, or panic (out-of-bounds index). -/
inductive RunResult (α : Type) where
  | ok (val : α)
  | fail
  | panicked
deriving DecidableEq

/-- Embeds Rust's `str::from_utf8` validity check on a byte sequence
(RFC 3629: overlong forms, surrogates and values above U+10FFFF rejected),
as used on the chunk type code at src/main.rs:126-129. -/
def utf8Valid : List UInt8 → Bool
  | [] => true
  | b :: rest =>
    if b ≤ 0x7F then utf8Valid rest
    else if b < 0xC2 then false
    else if b ≤ 0xDF then
      match rest with
      | c1 :: r => if 0x80 ≤ c1 ∧ c1 ≤ 0xBF then utf8Valid r else false
      | [] => false
    else if b ≤ 0xEF then
      match rest with
      | c1 :: c2 :: r =>
        let lo1 : UInt8 := if b = 0xE0 then 0xA0 else 0x80
        let hi1 : UInt8 := if b = 0xED then 0x9F else 0xBF
        if lo1 ≤ c1 ∧ c1 ≤ hi1 ∧ 0x80 ≤ c2 ∧ c2 ≤ 0xBF then utf8Valid r else false
      | _ => false
    else if b ≤ 0xF4 then
      match rest with
      | c1 :: c2 :: c3 :: r =>
        let lo1 : UInt8 := if b = 0xF0 then 0x90 else 0x80
        let hi1 : UInt8 := if b = 0xF4 then 0x8F else 0xBF
        if lo1 ≤ c1 ∧ c1 ≤ hi1 ∧ 0x80 ≤ c2 ∧ c2 ≤ 0xBF ∧ 0x80 ≤ c3 ∧ c3 ≤ 0xBF then
          utf8Valid r
        else false
      | _ => false
    else false

/-- Byte string of the chunk type name `IHDR`. -/
def typeIHDR : List UInt8 := [73, 72, 68, 82]

/-- Byte string of the chunk type name `IDAT`. -/
def typeIDAT : List UInt8 := [73, 68, 65, 84]

/-- Byte string of the chunk type name `PLTE`. -/
def typePLTE : List UInt8 := [80, 76, 84, 69]

/-- Byte string of the chunk type name `IEND`. -/
def typeIEND : List UInt8 := [73, 69, 78, 68]

/-- Embeds the positional parse of the IHDR payload (src/main.rs:133-150);
the reads advance a cursor on the chunk's own data slice. -/
def parseIhdrPayload (d : List UInt8) : Option PNGChunk :=
  match read_u32 d with
  | (none, _) => none
  | (some width, d1) =>
    match read_u32 d1 with
    | (none, _) => none
    | (some height, d2) =>
      match read_u8 d2 with
      | (none, _) => none
      | (some bit_depth, d3) =>
        match read_u8 d3 with
        | (none, _) => none
        | (some color_type, d4) =>
          match read_u8 d4 with
          | (none, _) => none
          | (some compression_method, d5) =>
            match read_u8 d5 with
            | (none, _) => none
            | (some filter_method, d6) =>
              match read_u8 d6 with
              | (none, _) => none
              | (some interlace_method, _) =>
                some (.IHDR width height bit_depth color_type compression_method
                  filter_method interlace_method)

/-- Embeds the chunk classification of one loop iteration
(src/main.rs:126-158): the UTF-8 check on the type code, the match on the
recognized names, and the ancillary-bit test `chunk_type[0] & (1 << 5)` for
everything else.  The source checks UTF-8 validity before reading the payload
bytes; both that order and this one collapse every failure to `none`, so the
results coincide on all inputs. -/
def parseChunk (chunk_type chunk_data : List UInt8) : Option PNGChunk :=
  if utf8Valid chunk_type then
    if chunk_type = typeIHDR then parseIhdrPayload chunk_data
    else if chunk_type = typeIDAT then some (.IDAT chunk_data)
    else if chunk_type = typePLTE then some .PLTE
    else if chunk_type = typeIEND then some .IEND
    else if chunk_type.headD 0 &&& ((1 : UInt8) <<< 5) = (1 : UInt8) <<< 5 then some .Ancillary
    else none
  else none

/-- Fuel-indexed embedding of the `while file.len() != 0` loop of
`read_chunks` (src/main.rs:119-166).  Each iteration reads the 32-bit length,
the 4-byte type, `length` payload bytes, classifies the chunk, and then reads
the 4-byte trailer with both its value and its possible failure discarded
(src/main.rs:162 has no `?`), so a failing trailer read leaves the cursor
unchanged. -/
def readChunksGo : Nat → List UInt8 → Option (List PNGChunk)
  | 0, _ => none
  | fuel + 1, file =>
    match file with
    | [] => some []
    | _ :: _ =>
      match read_u32 file with
      | (none, _) => none
      | (some length, f1) =>
        match read_bytes f1 4 with
        | (none, _) => none
        | (some chunk_type, f2) =>
          match read_bytes f2 length.toNat with
          | (none, _) => none
          | (some chunk_data, f3) =>
            match parseChunk chunk_type chunk_data with
            | none => none
            | some c =>
              match readChunksGo fuel ((read_u32 f3).2) with
              | none => none
              | some cs => some (c :: cs)

/-- Embeds `read_chunks` (src/main.rs:119-166); every loop iteration consumes
at least 8 bytes, so `length + 1` units of fuel always suffice. -/
def read_chunks (file : List UInt8) : Option (List PNGChunk) :=
  readChunksGo (file.length + 1) file

/-- Embeds the header validation block of `read_png` (src/main.rs:56-100):
the first chunk must be an IHDR, and the five trailing header fields must
equal 8, 2, 0, 0, 0 respectively; on success the width and height are kept. -/
def checkHeader : PNGChunk → Option (UInt32 × UInt32)
  | .IHDR width height bit_depth color_type compression_method filter_method
      interlace_method =>
    if bit_depth ≠ 8 then none
    else if color_type ≠ 2 then none
    else if compression_method ≠ 0 then none
    else if filter_method ≠ 0 then none
    else if interlace_method ≠ 0 then none
    else some (width, height)
  | _ => none

/-- Embeds the loop over `&chunks[1..]` (src/main.rs:103-113): a second IHDR
or a PLTE anywhere in the tail is an error, IDAT payloads are concatenated in
encounter order, everything else (IEND, ancillary) is skipped. -/
def processTail : List PNGChunk → Option (List UInt8)
  | [] => some []
  | .IHDR _ _ _ _ _ _ _ :: _ => none
  | .IDAT d :: rest =>
    match processTail rest with
    | none => none
    | some acc => some (d ++ acc)
  | .PLTE :: _ => none
  | _ :: rest => processTail rest

/-- Embeds the compressed-stream header check of `decompress_image`
(src/main.rs:168-184): read CMF and FLG, require the low nibble of CMF to be 8
and bit 5 of FLG to be 0; `flevel` (the top two FLG bits) is computed but
never used.  Returns the bytes after the two-byte header. -/
def zlibHeaderCheck (d : List UInt8) : Option (List UInt8) :=
  match read_u8 d with
  | (none, _) => none
  | (some cmf, d1) =>
    match read_u8 d1 with
    | (none, _) => none
    | (some flg, d2) =>
      let cm := cmf &&& 0xF
      let fdict := (flg >>> 5) &&& 0x1
      if cm ≠ 8 ∨ fdict ≠ 0 then none else some d2

/-- Fuel-indexed embedding of the block loop of `decompress_image`
(src/main.rs:186-211).  A stored block (BTYPE 00) reads big-endian LEN, reads
and discards NLEN without comparing it to LEN, and then reads LEN payload
bytes with the read's failure discarded (src/main.rs:203 has no `?`); fixed
and dynamic blocks (BTYPE 01/10) `break` immediately; BTYPE 11 fails. -/
def inflateGo : Nat → List UInt8 → Option Unit
  | 0, _ => none
  | fuel + 1, d =>
    match read_u8 d with
    | (none, _) => none
    | (some header, d1) =>
      let bfinal := header &&& 0x1
      let btype := (header >>> 1) &&& 0x3
      if btype = 0 then
        match read_u16 d1 with
        | (none, _) => none
        | (some len, d2) =>
          match read_u16 d2 with
          | (none, _) => none
          | (some _nlen, d3) =>
            let d4 := (read_bytes d3 len.toNat).2
            if bfinal = 1 then some () else inflateGo fuel d4
      else if btype = 1 then some ()
      else if btype = 2 then some ()
      else none

/-- The block loop with its fuel fixed to `length + 1`; every iteration that
continues consumes at least 5 bytes, so this fuel always suffices. -/
def inflateBlocks (d : List UInt8) : Option Unit :=
  inflateGo (d.length + 1) d

/-- Embeds `decompress_image` (src/main.rs:168-214). -/
def decompress_image (d : List UInt8) : Option Unit :=
  match zlibHeaderCheck d with
  | none => none
  | some rest => inflateBlocks rest

/-- Embeds the part of `read_png` after `read_chunks` (src/main.rs:52-116).
Indexing `chunks[0]` on an empty chunk list panics, exactly as in the
source. -/
def decodeChunks (chunks : List PNGChunk) : RunResult PNG :=
  match chunks with
  | [] => .panicked
  | c :: rest =>
    match checkHeader c with
    | none => .fail
    | some (width, height) =>
      match processTail rest with
      | none => .fail
      | some image_data =>
        match decompress_image image_data with
        | none => .fail
        | some _ => .ok ⟨width, height⟩

/-- The fixed 8-byte PNG signature (src/main.rs:44). -/
def pngSignature : List UInt8 := [137, 80, 78, 71, 13, 10, 26, 10]

/-- Embeds the signature loop of `read_png` (src/main.rs:45-49): at step `i`
the source evaluates `file[i]` before comparing, so a file shorter than the
signature that matches as far as it goes panics with an out-of-bounds index. -/
def checkSig : List UInt8 → List UInt8 → RunResult Unit
  | [], _ => .ok ()
  | _ :: _, [] => .panicked
  | s :: ss, b :: bs => if b ≠ s then .fail else checkSig ss bs

/-- Embeds `read_png` (src/main.rs:43-117). -/
def read_png (file : List UInt8) : RunResult PNG :=
  match checkSig pngSignature file with
  | .panicked => .panicked
  | .fail => .fail
  | .ok _ =>
    match read_chunks (file.drop 8) with
    | none => .fail
    | some chunks => decodeChunks chunks

/-- The minimal conforming stream of the spec's end-to-end scenario:
signature, IHDR(1, 1, 8, 2, 0, 0, 0), one IDAT whose payload is the
stream header `78 01` followed by a final stored block (`01`, LEN = 4
little-endian, NLEN = its complement, then the bytes filter, r, g, b),
then IEND.  Chunk trailers are zero: the decoder never inspects them. -/
def minimalPng (r g b : UInt8) : List UInt8 :=
  [137, 80, 78, 71, 13, 10, 26, 10,
   0, 0, 0, 13, 73, 72, 68, 82,
   0, 0, 0, 1, 0, 0, 0, 1, 8, 2, 0, 0, 0,
   0, 0, 0, 0,
   0, 0, 0, 11, 73, 68, 65, 84,
   0x78, 0x01, 0x01, 0x04, 0x00, 0xFB, 0xFF, 0x00, r, g, b,
   0, 0, 0, 0,
   0, 0, 0, 0, 73, 69, 78, 68,
   0, 0, 0, 0]

/-! ### Helper lemmas about the primitive readers -/

/-- Reading one byte from a non-empty buffer yields its head and its tail. -/
@[simp] theorem read_u8_cons (a : UInt8) (l : List UInt8) : read_u8 (a :: l) = (some a, l) := rfl

/-- Reading one byte from an empty buffer fails and keeps the buffer. -/
@[simp] theorem read_u8_nil : read_u8 [] = (none, []) := rfl

/-- Reading a big-endian 16-bit value from a buffer with at least two bytes. -/
@[simp] theorem read_u16_cons (a b : UInt8) (l : List UInt8) :
    read_u16 (a :: b :: l) = (some (u16FromBe a b), l) := rfl

/-- Reading a big-endian 32-bit value from a buffer with at least four bytes. -/
@[simp] theorem read_u32_cons (a b c d : UInt8) (l : List UInt8) :
    read_u32 (a :: b :: c :: d :: l) = (some (u32FromBe a b c d), l) := rfl

/-- A successful `read_bytes` consumes exactly `n` bytes. -/
theorem read_bytes_some_len {file f bs : List UInt8} {n : Nat}
    (h : read_bytes file n = (some bs, f)) : f.length + n = file.length := by
  unfold read_bytes at h
  split_ifs at h with hlt
  · simp at h
  · rw [Prod.mk.injEq] at h
    rw [← h.2, List.length_drop]
    omega

/-- The cursor returned by `read_bytes` never grows. -/
theorem read_bytes_snd_le (file : List UInt8) (n : Nat) :
    (read_bytes file n).2.length ≤ file.length := by
  unfold read_bytes
  split_ifs with hlt
  · exact le_rfl
  · simp [List.length_drop]

/-- A successful `read_u8` consumes exactly one byte. -/
theorem read_u8_some_len {file f : List UInt8} {v : UInt8}
    (h : read_u8 file = (some v, f)) : f.length + 1 = file.length := by
  cases file with
  | nil => simp at h
  | cons a t =>
    rw [read_u8_cons, Prod.mk.injEq] at h
    rw [← h.2]
    rfl

/-- A successful `read_u16` consumes exactly two bytes. -/
theorem read_u16_some_len {file f : List UInt8} {v : UInt16}
    (h : read_u16 file = (some v, f)) : f.length + 2 = file.length := by
  match file with
  | [] => simp [read_u16, read_bytes] at h
  | [a] => simp [read_u16, read_bytes] at h
  | a :: b :: t =>
    rw [read_u16_cons, Prod.mk.injEq] at h
    rw [← h.2]
    rfl

/-- A successful `read_u32` consumes exactly four bytes. -/
theorem read_u32_some_len {file f : List UInt8} {v : UInt32}
    (h : read_u32 file = (some v, f)) : f.length + 4 = file.length := by
  match file with
  | [] => simp [read_u32, read_bytes] at h
  | [a] => simp [read_u32, read_bytes] at h
  | [a, b] => simp [read_u32, read_bytes] at h
  | [a, b, c] => simp [read_u32, read_bytes] at h
  | a :: b :: c :: d :: t =>
    rw [read_u32_cons, Prod.mk.injEq] at h
    rw [← h.2]
    rfl

/-- The cursor returned by `read_u32` never grows (trailer reads discard
failures, so only this bound is needed there). -/
theorem read_u32_snd_le (file : List UInt8) : (read_u32 file).2.length ≤ file.length := by
  have hb := read_bytes_snd_le file 4
  unfold read_u32
  rcases hr : read_bytes file 4 with ⟨o, f⟩
  rw [hr] at hb
  cases o with
  | none => simpa using hb
  | some bs =>
    rcases bs with _ | ⟨b0, _ | ⟨b1, _ | ⟨b2, _ | ⟨b3, rest⟩⟩⟩⟩ <;>
      first
      | simpa using hb
      | (rcases rest with _ | ⟨x, xs⟩ <;> simpa using hb)

/-! ### Helper lemmas about the minimal conforming stream -/

/-- A final stored block whose LEN field reads (big-endian) as any value makes
the block loop stop right after the LEN/NLEN fields, whatever follows. -/
theorem inflateBlocks_final_stored (a b : UInt8) (t : List UInt8) :
    inflateBlocks (1 :: a :: b :: 251 :: 255 :: t) = some () := by
  have hb : ((1 : UInt8) >>> (1 : UInt8)) &&& (3 : UInt8) = 0 := by decide
  have hf : ((1 : UInt8) &&& (1 : UInt8)) = 1 := by decide
  simp [inflateBlocks, inflateGo, hb, hf]

/-- The compressed-stream header `78 01` passes the CM/FDICT checks. -/
theorem zlibHeaderCheck_78_01 (t : List UInt8) :
    zlibHeaderCheck (0x78 :: 0x01 :: t) = some t := by
  have h1 : ((0x78 : UInt8) &&& (0xF : UInt8)) = 8 := by decide
  have h2 : (((0x01 : UInt8) >>> (5 : UInt8)) &&& (1 : UInt8)) = 0 := by decide
  simp [zlibHeaderCheck, h1, h2]

/-- The minimal stream's IDAT payload decompresses successfully for any pixel
bytes. -/
theorem decompress_minimal_idat (t : List UInt8) :
    decompress_image (0x78 :: 0x01 :: 0x01 :: 4 :: 0 :: 251 :: 255 :: t) = some () := by
  simp [decompress_image, zlibHeaderCheck_78_01, inflateBlocks_final_stored]

/-- Chunk-splitting the minimal stream yields IHDR, IDAT, IEND. -/
theorem read_chunks_minimalPng (r g b : UInt8) : read_chunks ((minimalPng r g b).drop 8) =
    some [.IHDR 1 1 8 2 0 0 0,
      .IDAT [0x78, 0x01, 0x01, 0x04, 0x00, 0xFB, 0xFF, 0x00, r, g, b], .IEND] := rfl

/-- C1: the claim says every input yields an explicit success or failure value
and in particular an input shorter than 8 bytes, or exactly the 8-byte
signature, fails cleanly.  The code instead panics: `file[i]` indexes out of
bounds on the empty input, and `chunks[0]` indexes an empty chunk list when
nothing follows the signature. -/
theorem readPng_panics_on_missing_data :
    read_png [] = .panicked ∧ read_png [137, 80, 78, 71, 13, 10, 26, 10] = .panicked := by
  decide

/-- C2: on the minimal conforming stream (signature, IHDR(1,1,8,2,0,0,0), one
IDAT holding header `78 01` plus a final stored block with bytes
[filter, r, g, b], IEND) the decoder succeeds — but its result carries only
width 1 and height 1; no pixel bytes are produced, because the decompressed
output is discarded and `PNG` has no pixel field. -/
theorem readPng_minimal_stream (r g b : UInt8) : read_png (minimalPng r g b) = .ok ⟨1, 1⟩ := by
  have hch : checkHeader (PNGChunk.IHDR 1 1 8 2 0 0 0) = some (1, 1) := rfl
  rw [read_png, show checkSig pngSignature (minimalPng r g b) = .ok () from rfl,
    read_chunks_minimalPng]
  simp only [decodeChunks, hch, processTail, List.append_nil]
  rw [show ([0x78, 0x01, 0x01, 0x04, 0x00, 0xFB, 0xFF, 0x00, r, g, b] : List UInt8) =
      0x78 :: 0x01 :: 0x01 :: 4 :: 0 :: 251 :: 255 :: [0x00, r, g, b] from rfl]
  rw [decompress_minimal_idat]

/-- C3: the claim says a stored block whose NLEN is not the complement of LEN
must fail.  The code reads NLEN into `_nlen` and never compares it: here the
stream encodes LEN = 0 and NLEN = 0, the complement of LEN is 0xFFFF ≠ 0, and
decompression silently succeeds. -/
theorem decompress_accepts_forged_nlen :
    u16FromBe 0 0 = 0 ∧ ~~~(0 : UInt16) = 0xFFFF ∧ (0 : UInt16) ≠ 0xFFFF ∧
    decompress_image [0x78, 0x01, 0x01, 0x00, 0x00, 0x00, 0x00] = some () := by
  decide

/-- C7: the claim says a chunk whose 4-byte trailer cannot be fully read fails
with a truncated-input error.  The trailer read at src/main.rs:162 discards
its failure, so a chunk with no trailer at all at end of input parses
successfully; with 1-3 leftover bytes the loop fails only on the next
iteration's length read. -/
theorem read_chunks_tolerates_missing_trailer :
    read_chunks [0, 0, 0, 0, 73, 69, 78, 68] = some [PNGChunk.IEND] ∧
    read_chunks [0, 0, 0, 0, 73, 69, 78, 68, 0, 0, 0] = none := by
  decide

/-- C4: with an IHDR first chunk, the header is accepted (width and height
extracted) exactly when bit_depth = 8, color_type = 2, compression_method = 0,
filter_method = 0 and interlace_method = 0; any violation of one of the five
equalities makes the whole decode fail. -/
theorem checkHeader_accepts_iff_supported (w h : UInt32) (bd ct cm fm im : UInt8) :
    (checkHeader (.IHDR w h bd ct cm fm im) = some (w, h) ↔
      bd = 8 ∧ ct = 2 ∧ cm = 0 ∧ fm = 0 ∧ im = 0) ∧
    (∀ rest, ¬(bd = 8 ∧ ct = 2 ∧ cm = 0 ∧ fm = 0 ∧ im = 0) →
      decodeChunks (.IHDR w h bd ct cm fm im :: rest) = .fail) := by
  have hch : checkHeader (.IHDR w h bd ct cm fm im) =
      if bd = 8 ∧ ct = 2 ∧ cm = 0 ∧ fm = 0 ∧ im = 0 then some (w, h) else none := by
    simp only [checkHeader]
    split_ifs with h1 h2 h3 h4 h5 h6 <;> simp_all
  constructor
  · rw [hch]
    split_ifs with hc
    · simp [hc]
    · simp [hc]
  · intro rest hviol
    simp only [decodeChunks, hch, if_neg hviol]

/-- Witness for C4 at bit_depth 7. -/
theorem checkHeader_accepts_iff_supported_witness :
    decodeChunks [PNGChunk.IHDR 1 1 7 2 0 0 0] = .fail :=
  (checkHeader_accepts_iff_supported 1 1 7 2 0 0 0).2 [] (by decide)

/-- C6: decompression fails at the two-byte compressed-stream header exactly
when fewer than two bytes remain, the low nibble of CMF differs from 8, or
bit 5 of FLG is set; and masking away the top two (compression-level hint)
bits of FLG never changes the decompression outcome. -/
theorem zlibHeaderCheck_characterization :
    (∀ d : List UInt8, d.length < 2 → zlibHeaderCheck d = none) ∧
    (∀ (cmf flg : UInt8) (rest : List UInt8),
      (zlibHeaderCheck (cmf :: flg :: rest) = none ↔
        cmf &&& (0xF : UInt8) ≠ 8 ∨ (flg >>> (5 : UInt8)) &&& (1 : UInt8) ≠ 0) ∧
      decompress_image (cmf :: flg :: rest) =
        decompress_image (cmf :: (flg &&& (0x3F : UInt8)) :: rest)) := by
  constructor
  · intro d hd
    match d with
    | [] => rfl
    | [a] => rfl
    | a :: b :: t =>
      simp only [List.length_cons] at hd
      omega
  · intro cmf flg rest
    constructor
    · simp only [zlibHeaderCheck, read_u8_cons]
      split_ifs with hc
      · simp [hc]
      · simp [hc]
    · have hmask : ((flg &&& (0x3F : UInt8)) >>> (5 : UInt8)) &&& (1 : UInt8) =
          (flg >>> (5 : UInt8)) &&& (1 : UInt8) := by
        obtain ⟨n⟩ := flg
        revert n
        decide
      simp only [decompress_image, zlibHeaderCheck, read_u8_cons, hmask]

/-- Witness for C6 on a one-byte stream. -/
theorem zlibHeaderCheck_characterization_witness : zlibHeaderCheck [0x78] = none :=
  zlibHeaderCheck_characterization.1 [0x78] (by decide)

/-- C10: whenever a primitive reader fails because fewer bytes remain than it
needs, it returns the failure value with the cursor unchanged: no bytes are
consumed by a failed read. -/
theorem readers_fail_without_consuming (file : List UInt8) (n : Nat) :
    (file.length < n → read_bytes file n = (none, file)) ∧
    (file.length < 1 → read_u8 file = (none, file)) ∧
    (file.length < 2 → read_u16 file = (none, file)) ∧
    (file.length < 4 → read_u32 file = (none, file)) := by
  refine ⟨fun h => by simp [read_bytes, h], fun h => ?_, fun h => ?_, fun h => ?_⟩
  · match file with
    | [] => rfl
    | a :: t =>
      simp only [List.length_cons] at h
      omega
  · match file with
    | [] => rfl
    | [a] => rfl
    | a :: b :: t =>
      simp only [List.length_cons] at h
      omega
  · match file with
    | [] => rfl
    | [a] => rfl
    | [a, b] => rfl
    | [a, b, c] => rfl
    | a :: b :: c :: d :: t =>
      simp only [List.length_cons] at h
      omega

/-- Witness for C10 on a one-byte buffer asked for a 32-bit value. -/
theorem readers_fail_without_consuming_witness : read_u32 [7] = (none, [7]) :=
  (readers_fail_without_consuming [7] 2).2.2.2 (by decide)

/-! ### Helper lemmas about the chunk-tail loop -/

/-- The tail loop is compositional: a leading error wins, otherwise the
collected IDAT payloads concatenate. -/
theorem processTail_append (xs ys : List PNGChunk) :
    processTail (xs ++ ys) =
      match processTail xs with
      | none => none
      | some d =>
        match processTail ys with
        | none => none
        | some e => some (d ++ e) := by
  induction xs with
  | nil =>
    simp only [List.nil_append, processTail]
    rcases processTail ys with _ | e <;> simp
  | cons c rest ih =>
    cases c with
    | IHDR w h bd ct cm fm im => simp [processTail]
    | PLTE => simp [processTail]
    | IDAT d =>
      rw [List.cons_append]
      show (match processTail (rest ++ ys) with
        | none => none
        | some acc => some (d ++ acc)) = _
      rw [ih]
      rcases hr : processTail rest with _ | e <;>
        rcases hy : processTail ys with _ | f <;>
          simp [processTail, hr, hy, List.append_assoc]
    | IEND =>
      rw [List.cons_append]
      show processTail (rest ++ ys) = _
      exact ih
    | Ancillary =>
      rw [List.cons_append]
      show processTail (rest ++ ys) = _
      exact ih

/-- A run of IEND/ancillary chunks contributes nothing and cannot fail. -/
theorem processTail_ignorable (e : List PNGChunk)
    (he : ∀ c ∈ e, c = PNGChunk.IEND ∨ c = PNGChunk.Ancillary) : processTail e = some [] := by
  induction e with
  | nil => rfl
  | cons c rest ih =>
    have hc := he c (by simp)
    have hrest : processTail rest = some [] := ih fun x hx => he x (by simp [hx])
    rcases hc with rfl | rfl <;> simpa [processTail] using hrest

/-- Inversion of a successful chunk-level decode. -/
theorem decodeChunks_ok_inv {cs : List PNGChunk} {p : PNG} (h : decodeChunks cs = .ok p) :
    ∃ c rest w ht d, cs = c :: rest ∧ checkHeader c = some (w, ht) ∧
      processTail rest = some d ∧ decompress_image d = some () ∧ p = ⟨w, ht⟩ := by
  match cs with
  | [] => simp [decodeChunks] at h
  | c :: rest =>
    rcases hch : checkHeader c with _ | ⟨w, ht⟩
    · rw [show decodeChunks (c :: rest) = .fail by simp [decodeChunks, hch]] at h
      simp at h
    · rcases hpt : processTail rest with _ | d
      · rw [show decodeChunks (c :: rest) = .fail by simp [decodeChunks, hch, hpt]] at h
        simp at h
      · rcases hdc : decompress_image d with _ | u
        · rw [show decodeChunks (c :: rest) = .fail by simp [decodeChunks, hch, hpt, hdc]] at h
          simp at h
        · cases u
          rw [show decodeChunks (c :: rest) = .ok ⟨w, ht⟩ by
            simp [decodeChunks, hch, hpt, hdc]] at h
          injection h with h
          exact ⟨c, rest, w, ht, d, rfl, hch, hpt, hdc, h.symm⟩

/-- C5 (counterexample): the claim says appending any chunks — including a
second IHDR — after the IEND leaves the decode result unchanged; here a chunk
sequence that decodes successfully through IEND turns into a failure when an
IHDR is appended after the IEND. -/
theorem decodeChunks_ihdr_after_iend_changes_result :
    decodeChunks [PNGChunk.IHDR 1 1 8 2 0 0 0,
      PNGChunk.IDAT [0x78, 0x01, 0x01, 0, 0, 0xFF, 0xFF], PNGChunk.IEND] = .ok ⟨1, 1⟩ ∧
    decodeChunks ([PNGChunk.IHDR 1 1 8 2 0 0 0,
      PNGChunk.IDAT [0x78, 0x01, 0x01, 0, 0, 0xFF, 0xFF], PNGChunk.IEND] ++
        [PNGChunk.IHDR 1 1 8 2 0 0 0]) = .fail := by
  decide

/-- C5 (amended): chunks after an IEND are processed exactly like chunks
before it, so only appended IEND or ancillary chunks leave a successful decode
unchanged, while an appended IHDR or PLTE makes it fail (and an appended IDAT
would extend the compressed stream). -/
theorem decodeChunks_after_iend (cs extra : List PNGChunk) (p : PNG)
    (hok : decodeChunks cs = .ok p) :
    ((∀ c ∈ extra, c = PNGChunk.IEND ∨ c = PNGChunk.Ancillary) →
      decodeChunks (cs ++ extra) = .ok p) ∧
    (∀ w ht bd ct cm fm im,
      decodeChunks (cs ++ PNGChunk.IHDR w ht bd ct cm fm im :: extra) = .fail) ∧
    decodeChunks (cs ++ PNGChunk.PLTE :: extra) = .fail := by
  obtain ⟨c, rest, w, ht, d, rfl, hch, hpt, hdc, rfl⟩ := decodeChunks_ok_inv hok
  refine ⟨fun hig => ?_, fun w2 h2 bd ct cm fm im => ?_, ?_⟩
  · have hex : processTail extra = some [] := processTail_ignorable extra hig
    simp only [List.cons_append, decodeChunks, hch, processTail_append, hpt, hex,
      List.append_nil, hdc]
  · simp only [List.cons_append, decodeChunks, hch, processTail_append, hpt, processTail]
  · simp only [List.cons_append, decodeChunks, hch, processTail_append, hpt, processTail]

/-- Witness for C5: appending an ancillary chunk after IEND preserves the
successful result. -/
theorem decodeChunks_after_iend_witness :
    decodeChunks ([PNGChunk.IHDR 1 1 8 2 0 0 0,
      PNGChunk.IDAT [0x78, 0x01, 0x01, 0, 0, 0xFF, 0xFF], PNGChunk.IEND] ++
        [PNGChunk.Ancillary]) = .ok ⟨1, 1⟩ :=
  (decodeChunks_after_iend [PNGChunk.IHDR 1 1 8 2 0 0 0,
      PNGChunk.IDAT [0x78, 0x01, 0x01, 0, 0, 0xFF, 0xFF], PNGChunk.IEND]
    [PNGChunk.Ancillary] ⟨1, 1⟩ (by decide)).1 (by decide)

/-- C8 (counterexample): the claim says an unrecognized type code is accepted
exactly when bit 0x20 of its first byte is set; the type code FF FF FF FF has
that bit set, is none of the recognized names, and is still rejected, because
the code first requires the four bytes to be valid UTF-8. -/
theorem parseChunk_ancillary_bit_insufficient :
    [0xFF, 0xFF, 0xFF, 0xFF] ≠ typeIHDR ∧ [0xFF, 0xFF, 0xFF, 0xFF] ≠ typeIDAT ∧
    [0xFF, 0xFF, 0xFF, 0xFF] ≠ typePLTE ∧ [0xFF, 0xFF, 0xFF, 0xFF] ≠ typeIEND ∧
    ((0xFF : UInt8) &&& (0x20 : UInt8)) = 0x20 ∧
    parseChunk [0xFF, 0xFF, 0xFF, 0xFF] [] = none ∧
    read_chunks [0, 0, 0, 0, 0xFF, 0xFF, 0xFF, 0xFF] = none := by
  decide

/-- C8 (amended): a 4-byte type code outside the recognized names is accepted
(and tagged ancillary) exactly when it is valid UTF-8 and bit 0x20 of its
first byte is set; it is rejected exactly when it is not valid UTF-8 or that
bit is clear. -/
theorem parseChunk_unrecognized_rules (t0 t1 t2 t3 : UInt8) (data : List UInt8)
    (h1 : [t0, t1, t2, t3] ≠ typeIHDR) (h2 : [t0, t1, t2, t3] ≠ typeIDAT)
    (h3 : [t0, t1, t2, t3] ≠ typePLTE) (h4 : [t0, t1, t2, t3] ≠ typeIEND) :
    (parseChunk [t0, t1, t2, t3] data = some PNGChunk.Ancillary ↔
      utf8Valid [t0, t1, t2, t3] = true ∧ t0 &&& (0x20 : UInt8) = 0x20) ∧
    (parseChunk [t0, t1, t2, t3] data = none ↔
      (utf8Valid [t0, t1, t2, t3] = false ∨ t0 &&& (0x20 : UInt8) ≠ 0x20)) := by
  have hb : ((1 : UInt8) <<< (5 : UInt8)) = 0x20 := by decide
  by_cases hu : utf8Valid [t0, t1, t2, t3] = true
  · by_cases hbit : t0 &&& (0x20 : UInt8) = 0x20
    · simp [parseChunk, hu, hb, if_neg h1, if_neg h2, if_neg h3, if_neg h4, hbit]
    · simp [parseChunk, hu, hb, if_neg h1, if_neg h2, if_neg h3, if_neg h4, hbit]
  · simp [parseChunk, hu, Bool.not_eq_true _ ▸ hu]

/-- Witness for C8: the ancillary type `tEXt` (lower-case first letter, valid
UTF-8) is accepted. -/
theorem parseChunk_unrecognized_rules_witness :
    parseChunk [0x74, 0x45, 0x58, 0x74] [] = some PNGChunk.Ancillary :=
  ((parseChunk_unrecognized_rules 0x74 0x45 0x58 0x74 []
    (by decide) (by decide) (by decide) (by decide)).1).mpr (by decide)

/-! ### Fuel adequacy of the two loops -/

/-- Any two fuels above the input length hand `readChunksGo` the same result:
every continuing iteration of the chunk loop consumes at least 8 bytes. -/
theorem readChunksGo_congr : ∀ (n m : Nat) (file : List UInt8),
    file.length < n → file.length < m → readChunksGo n file = readChunksGo m file := by
  intro n
  induction n using Nat.strongRecOn with
  | ind n ih =>
    intro m file hn hm
    match n, hn with
    | k + 1, hn =>
      match m, hm with
      | j + 1, hm =>
        cases file with
        | nil => rfl
        | cons x xs =>
          simp only [readChunksGo]
          split
          next => rfl
          next len f1 h1 =>
            split
            next => rfl
            next ctype f2 h2 =>
              split
              next => rfl
              next cdata f3 h3 =>
                split
                next => rfl
                next c hp =>
                  have l1 := read_u32_some_len h1
                  have l2 := read_bytes_some_len h2
                  have l3 := read_bytes_some_len h3
                  have l4 := read_u32_snd_le f3
                  simp only [List.length_cons] at l1 hn hm
                  have hrec : readChunksGo k ((read_u32 f3).2) =
                      readChunksGo j ((read_u32 f3).2) := by
                    refine ih k (Nat.lt_succ_self k) j ((read_u32 f3).2) ?_ ?_ <;> omega
                  rw [hrec]

/-- Any two fuels above the input length hand `inflateGo` the same result:
every continuing iteration of the block loop consumes at least 5 bytes. -/
theorem inflateGo_congr : ∀ (n m : Nat) (d : List UInt8),
    d.length < n → d.length < m → inflateGo n d = inflateGo m d := by
  intro n
  induction n using Nat.strongRecOn with
  | ind n ih =>
    intro m d hn hm
    match n, hn with
    | k + 1, hn =>
      match m, hm with
      | j + 1, hm =>
        simp only [inflateGo]
        split
        next => rfl
        next header d1 h1 =>
          split
          next hb0 =>
            split
            next => rfl
            next len d2 h2 =>
              split
              next => rfl
              next nl d3 h3 =>
                split
                next hbf => rfl
                next hbf =>
                  have l1 := read_u8_some_len h1
                  have l2 := read_u16_some_len h2
                  have l3 := read_u16_some_len h3
                  have l4 := read_bytes_snd_le d3 len.toNat
                  exact ih k (Nat.lt_succ_self k) j ((read_bytes d3 len.toNat).2)
                    (by omega) (by omega)
          next hb0 => rfl

/-- C9: both loops make progress bounded by the input length — computing with
any fuel exceeding the input length equals the canonical run (`read_chunks`,
`inflateBlocks`), so the embedded decode is a total function of its input. -/
theorem decode_loops_input_bounded :
    (∀ (n : Nat) (file : List UInt8), file.length < n → readChunksGo n file = read_chunks file) ∧
    (∀ (n : Nat) (d : List UInt8), d.length < n → inflateGo n d = inflateBlocks d) :=
  ⟨fun n file hn => readChunksGo_congr n (file.length + 1) file hn (Nat.lt_succ_self _),
   fun n d hn => inflateGo_congr n (d.length + 1) d hn (Nat.lt_succ_self _)⟩

/-- Witness for C9 with fuel 5 on the empty input. -/
theorem decode_loops_input_bounded_witness :
    readChunksGo 5 [] = read_chunks [] ∧ inflateGo 5 [] = inflateBlocks [] :=
  ⟨decode_loops_input_bounded.1 5 [] (by decide),
   decode_loops_input_bounded.2 5 [] (by decide)⟩
